import Mathlib

/-!
Shallow embedding of the routing daemon (src/main.py) in Lean 4.

The program is a RIP-style distance-vector router.  We embed the pure
content of each function of the source:

* the RipEntry record and its wire encoding (class RipEntry, build_packet);
* the outbound-packet builder with split-horizon poisoned reverse
  (rip_packet), including its mutate-then-restore handling of the table;
* the datagram format check (format_check);
* the update engine (update_table) with its two passes: the first pass over
  the table that refreshes the sender entry and computes metric_to_sender,
  including the contact re-scan when the sender was poisoned, and the
  second pass over the records of the packet;
* the expiry sweep (timeout_check) and the per-iteration refresh of the
  self entry performed by mainloop, and mainloop's receive step;
* the table-building part of startup (read_config).

Python exceptions (IndexError on out-of-range byte access, the
UnboundLocalError on metric_to_sender when the sender is unknown) are
modelled by Option: none means the call raises.  Wall-clock times
(time.time()) are passed in explicitly as an integer parameter now; the
value 0 is the cleared-timer sentinel exactly as in the source.  Python
while loops over the packet are translated with a fuel argument equal to
the packet length, which strictly exceeds the number of iterations
(every iteration advances the byte index by 20).
-/

/-- One row of the routing table, exactly the fields of class RipEntry. -/
structure RipEntry where
  router_id : Nat
  metric : Nat
  next_hop : Nat
  timer : Int
deriving DecidableEq

/-- The 20-byte wire record of one entry: seven zero bytes, the router id,
eleven zero bytes, the metric (RipEntry.build_packet in the source). -/
def RipEntry.build_packet (e : RipEntry) : List Nat :=
  List.replicate 7 0 ++ [e.router_id] ++ List.replicate 11 0 ++ [e.metric]

/-- A 20-byte record with a given id byte (offset 7) and metric byte
(offset 19); build_packet produces exactly this shape. -/
def rec20 (id adv : Nat) : List Nat :=
  List.replicate 7 0 ++ [id] ++ List.replicate 11 0 ++ [adv]

/-- One iteration of the packet-building loop of rip_packet: the stored
metric is saved, overwritten with 16 when the entry was learned from the
receiver (split horizon with poisoned reverse), encoded, and restored. -/
def rip_packet_entries : List RipEntry → Nat → List Nat × List RipEntry
  | [], _ => ([], [])
  | e :: rest, receiver =>
    let real_metric := e.metric
    let e1 := if e.next_hop = receiver then { e with metric := 16 } else e
    let rec_bytes := e1.build_packet
    let e2 := { e1 with metric := real_metric }
    let tail := rip_packet_entries rest receiver
    (rec_bytes ++ tail.1, e2 :: tail.2)

/-- rip_packet from the source: the RIP header [2,2,0,0] followed by one
20-byte record per entry.  The second component is the table as it stands
after the call (the source mutates entries in place and restores them). -/
def rip_packet (rip_entries : List RipEntry) (receiver : Nat) : List Nat × List RipEntry :=
  let body := rip_packet_entries rip_entries receiver
  ([2, 2, 0, 0] ++ body.1, body.2)

/-- The three datagram format errors, in the order format_check tests them. -/
inductive FormatError where
  | TooShort
  | BadHeader
  | Fragmented
deriving DecidableEq

/-- format_check from the source: length at least 4, then the fixed header
bytes 2,2,0,0, then a whole number of 20-byte records; the first failing
check wins and is reported (the source prints error_msg 10/11/12 and
returns False; we return the error, none meaning True). -/
def format_check (p : List Nat) : Option FormatError :=
  if p.length < 4 then some FormatError.TooShort
  else if ¬ p.take 4 = [2, 2, 0, 0] then some FormatError.BadHeader
  else if ¬ (p.length - 4) % 20 = 0 then some FormatError.Fragmented
  else none

/-- The while loop inside the first pass of update_table, entered when the
sender entry is poisoned (metric 16): scan the records from byte index idx
for one whose id byte equals the local router id; on a hit stop at that
index and return its metric byte, otherwise run off the end.  none models
an IndexError.  Fuel bounds the iteration count. -/
def contact_scan (p : List Nat) (self_id : Nat) : Nat → Nat → Option (Nat × Option Nat)
  | fuel, idx =>
    if idx < p.length then
      match fuel, p[idx + 7]? with
      | 0, _ => none
      | _ + 1, none => none
      | fuel + 1, some v =>
        if v = self_id then
          match p[idx + 19]? with
          | none => none
          | some m => some (idx, some m)
        else contact_scan p self_id fuel (idx + 20)
    else some (idx, none)

/-- The running state of the first pass of update_table: the accumulated
current_routers list, the metric_to_sender local variable (none while still
unassigned), and the shared scan index (initially the default argument 24). -/
structure L1State where
  crs : List Nat
  ms : Option Nat
  index : Nat
deriving DecidableEq

/-- The body of the first pass of update_table for one entry: ids other
than the local id are collected into current_routers; the sender entry has
its timer refreshed and, when poisoned, its metric re-read from a record
about the local router (contact_scan); metric_to_sender is then set from
the sender entry. -/
def loop1_step (p : List Nat) (self_id sender : Nat) (now : Int) (st : L1State)
    (e : RipEntry) : Option (L1State × RipEntry) :=
  let crs' := if ¬ e.router_id = self_id then st.crs ++ [e.router_id] else st.crs
  if e.router_id = sender then
    let e1 : RipEntry := { e with timer := now }
    if e1.metric = 16 then
      match contact_scan p self_id p.length st.index with
      | none => none
      | some (idx', found) =>
        match found with
        | some m =>
          let e2 : RipEntry := { e1 with metric := m, timer := now }
          some ({ crs := crs', ms := some e2.metric, index := idx' }, e2)
        | none => some ({ crs := crs', ms := some e1.metric, index := idx' }, e1)
    else some ({ crs := crs', ms := some e1.metric, index := st.index }, e1)
  else some ({ st with crs := crs' }, e)

/-- The first pass of update_table over the whole table. -/
def loop1 (p : List Nat) (self_id sender : Nat) (now : Int) :
    L1State → List RipEntry → Option (L1State × List RipEntry)
  | st, [] => some (st, [])
  | st, e :: rest =>
    match loop1_step p self_id sender now st e with
    | none => none
    | some (st', e') =>
      match loop1 p self_id sender now st' rest with
      | none => none
      | some (st'', rest') => some (st'', e' :: rest')

/-- The inner for loop of the second pass of update_table, applied to one
table entry for the record (id, candidate): a candidate of at least 16 for
an entry routed through the sender poisons it (metric 16, timer cleared);
otherwise the timer is refreshed and the candidate is adopted, switching
next_hop to the sender, only when strictly below the stored metric. -/
def apply_record (sender id cand : Nat) (now : Int) (e : RipEntry) : RipEntry :=
  if e.router_id = id then
    if 16 ≤ cand ∧ e.next_hop = sender then { e with metric := 16, timer := 0 }
    else
      let e1 := { e with timer := now }
      if cand < e1.metric then { e1 with metric := cand, next_hop := sender } else e1
  else e

/-- The second pass of update_table: walk the records from byte index 24;
for each, read the id byte and metric byte (none on IndexError) and add
metric_to_sender (none on the UnboundLocalError when it was never
assigned); known ids update every matching entry via apply_record, unknown
ids append a fresh entry with the unclamped candidate metric.  Fuel bounds
the iteration count. -/
def loop2 (p : List Nat) (sender : Nat) (ms : Option Nat) (crs : List Nat) (now : Int) :
    Nat → Nat → List RipEntry → Option (List RipEntry)
  | fuel, index, table =>
    if index < p.length then
      match fuel, ms, p[index + 7]?, p[index + 19]? with
      | 0, _, _, _ => none
      | _ + 1, none, _, _ => none
      | _ + 1, _, none, _ => none
      | _ + 1, _, _, none => none
      | fuel + 1, some msv, some id, some adv =>
        let cand := adv + msv
        let table' :=
          if id ∈ crs then table.map (apply_record sender id cand now)
          else table ++ [RipEntry.mk id cand sender now]
        loop2 p sender (some msv) crs now fuel (index + 20) table'
    else some table

/-- update_table from the source: read the sender id from byte 11, run the
first pass (which also fixes routing_table[0].router_id as the local id),
then the second pass from byte index 24.  none models an uncaught Python
exception (IndexError or the unknown-sender UnboundLocalError). -/
def update_table (p : List Nat) (routing_table : List RipEntry) (now : Int) :
    Option (List RipEntry) :=
  match p[11]? with
  | none => none
  | some sender =>
    match routing_table with
    | [] => loop2 p sender none [] now p.length 24 []
    | h :: _ =>
      match loop1 p h.router_id sender now (L1State.mk [] none 24) routing_table with
      | none => none
      | some (st, table1) => loop2 p sender st.ms st.crs now p.length 24 table1

/-- timeout_check from the source: every entry whose timer is running
(nonzero) and more than 30 seconds old has its metric set to 16 and its
timer cleared.  The self entry is not treated specially. -/
def timeout_check (routing_table : List RipEntry) (now : Int) : List RipEntry :=
  match routing_table with
  | [] => []
  | e :: rest =>
    (if ¬ e.timer = 0 ∧ e.timer < now - 30 then { e with metric := 16, timer := 0 } else e)
      :: timeout_check rest now

/-- The self-timer refresh at the top of each mainloop iteration: when the
head entry's timer is more than 10 seconds old it is reset to now (and a
periodic update is sent, which does not change the table). -/
def periodic_refresh (table : List RipEntry) (now : Int) : List RipEntry :=
  match table with
  | [] => []
  | h :: rest => if h.timer < now - 10 then { h with timer := now } :: rest else h :: rest

/-- The receive branch of mainloop: a datagram is handed to update_table
only when format_check accepts it; otherwise it is dropped (logged) and the
table is returned unchanged. -/
def receive_step (data : List Nat) (table : List RipEntry) (now : Int) :
    Option (List RipEntry) :=
  if format_check data = none then update_table data table now else some table

/-- The input-port loop of read_config: each port must lie strictly between
1024 and 64000 (else sys.exit), and the neighbour id is derived as
(port - router_id * 1000) / 100 with Python int() truncation toward zero. -/
def read_config_inputs (router_num : Nat) : List Nat → Option (List Nat × List Int)
  | [] => some ([], [])
  | entry :: rest =>
    if 1024 < entry ∧ entry < 64000 then
      match read_config_inputs router_num rest with
      | none => none
      | some (ports, neighbours) =>
        some (entry :: ports, Int.tdiv ((entry : Int) - (router_num : Int) * 1000) 100 :: neighbours)
    else none

/-- The outputs loop of read_config, over triples
(output_port, metric, router_id) as split by the regex: the port must lie
in [1024, 64000], must not also be an input port, and the declared router
id must match a derived neighbour (else sys.exit, modelled as none); each
accepted output contributes (router_id, output_port) and a table entry
RipEntry(router_id, metric, router_id, now). -/
def read_config_outputs (input_ports : List Nat) (neighbours : List Int) (now : Int) :
    List (Nat × Nat × Nat) → Option (List (Nat × Nat) × List RipEntry)
  | [] => some ([], [])
  | (output_port, metric, router_id) :: rest =>
    if 1024 ≤ output_port ∧ output_port ≤ 64000 then
      if ¬ output_port ∈ input_ports then
        if (router_id : Int) ∈ neighbours then
          match read_config_outputs input_ports neighbours now rest with
          | none => none
          | some (ports, entries) =>
            some ((router_id, output_port) :: ports,
              RipEntry.mk router_id metric router_id now :: entries)
        else none
      else none
    else none

/-- The table-building content of read_config: the router-id guard exactly
as written in the source (1 >= router_num >= 64000, a conjunction), the
input-port loop, then the outputs loop appended after the self entry
RipEntry(router_num, 0, router_num, now).  none models sys.exit. -/
def read_config_table (router_num : Nat) (inputs : List Nat)
    (outputs : List (Nat × Nat × Nat)) (now : Int) :
    Option (List (Nat × Nat) × List RipEntry) :=
  if 1 ≥ router_num ∧ router_num ≥ 64000 then none
  else
    match read_config_inputs router_num inputs with
    | none => none
    | some (input_ports, neighbours) =>
      match read_config_outputs input_ports neighbours now outputs with
      | none => none
      | some (output_ports, entries) =>
        some (output_ports, RipEntry.mk router_num 0 router_num now :: entries)

/-- A structurally valid packet built from a sender record (id byte =
sender, metric byte = m0) followed by one 20-byte record per (id, metric)
pair of R.  update_table reads the sender id from byte 11 of the first
record and processes only the records of R (its walk starts at byte 24). -/
def mkPacket (sender m0 : Nat) (R : List (Nat × Nat)) : List Nat :=
  [2, 2, 0, 0] ++ (rec20 sender m0 :: R.map (fun r => rec20 r.1 r.2)).flatten

/-- The observable part of an entry for the idempotence claim: destination
id, metric and next hop (timers are refreshed on every application). -/
def proj (e : RipEntry) : Nat × Nat × Nat := (e.router_id, e.metric, e.next_hop)

/-- The effect the first pass of update_table has on one entry when no
record of the packet mentions the local router id: the sender entry's
timer is refreshed, everything else is untouched. -/
def refresh (sender : Nat) (now : Int) (e : RipEntry) : RipEntry :=
  if e.router_id = sender then { e with timer := now } else e

/-- The current_routers list the first pass of update_table accumulates:
the ids of the entries other than the local (head) router id, in table
order. -/
def nonSelf (self_id : Nat) (t : List RipEntry) : List Nat :=
  t.filterMap (fun e => if ¬ e.router_id = self_id then some e.router_id else none)

/-- The metric_to_sender variable after the first pass of update_table:
the metric of the last entry whose id equals the sender (none when never
assigned, which makes the second pass raise). -/
def msFold (sender : Nat) (acc : Option Nat) (t : List RipEntry) : Option Nat :=
  t.foldl (fun a e => if e.router_id = sender then some e.metric else a) acc

/-- The second pass of update_table expressed directly over the decoded
(id, advertised metric) record list. -/
def apply_records (sender ms : Nat) (crs : List Nat) (now : Int) :
    List (Nat × Nat) → List RipEntry → List RipEntry
  | [], t => t
  | (id, adv) :: rest, t =>
    apply_records sender ms crs now rest
      (if id ∈ crs then t.map (apply_record sender id (adv + ms) now)
       else t ++ [RipEntry.mk id (adv + ms) sender now])

/-- The accumulated effect of all records of a packet on one fixed entry
that was already in the table when the second pass started. -/
def stepAll (sender ms : Nat) (crs : List Nat) (now : Int) (R : List (Nat × Nat))
    (e : RipEntry) : RipEntry :=
  R.foldl (fun x r => if r.1 ∈ crs then apply_record sender r.1 (r.2 + ms) now x else x) e

/-- The entries the second pass appends: one per record whose id is not in
current_routers, carrying the unclamped candidate metric. -/
def insertsOf (sender ms : Nat) (crs : List Nat) (now : Int) (R : List (Nat × Nat)) :
    List RipEntry :=
  (R.filter (fun r => ¬ r.1 ∈ crs)).map (fun r => RipEntry.mk r.1 (r.2 + ms) sender now)

/-- apply_record on the (router_id, metric, next_hop) projection: timers do
not influence which branch is taken. -/
def projApply (sender id cand : Nat) (x : Nat × Nat × Nat) : Nat × Nat × Nat :=
  if x.1 = id then
    if 16 ≤ cand ∧ x.2.2 = sender then (x.1, 16, x.2.2)
    else if cand < x.2.1 then (x.1, cand, sender) else x
  else x

/-- stepAll on the (router_id, metric, next_hop) projection. -/
def projStepAll (sender ms : Nat) (crs : List Nat) (R : List (Nat × Nat))
    (x : Nat × Nat × Nat) : Nat × Nat × Nat :=
  R.foldl (fun y r => if r.1 ∈ crs then projApply sender r.1 (r.2 + ms) y else y) x

/-! ## Basic facts about the wire encoding -/

theorem rec20_length (id adv : Nat) : (rec20 id adv).length = 20 := rfl

theorem rec20_get7 (id adv : Nat) : (rec20 id adv)[7]? = some id := rfl

theorem rec20_get19 (id adv : Nat) : (rec20 id adv)[19]? = some adv := rfl

theorem build_packet_eq (e : RipEntry) : e.build_packet = rec20 e.router_id e.metric := rfl

theorem rip_packet_entries_snd (r : Nat) :
    ∀ t : List RipEntry, (rip_packet_entries t r).2 = t := by
  intro t
  induction t with
  | nil => rfl
  | cons e rest ih =>
    cases e with
    | mk rid m nh tm => by_cases h : nh = r <;> simp [rip_packet_entries, h, ih]

theorem rip_packet_entries_fst (r : Nat) :
    ∀ t : List RipEntry,
      (rip_packet_entries t r).1 =
        (t.map (fun e => rec20 e.router_id (if e.next_hop = r then 16 else e.metric))).flatten := by
  intro t
  induction t with
  | nil => rfl
  | cons e rest ih =>
    cases e with
    | mk rid m nh tm => by_cases h : nh = r <;> simp [rip_packet_entries, h, ih, build_packet_eq]

theorem flatten20_length :
    ∀ B : List (List Nat), (∀ b ∈ B, b.length = 20) → B.flatten.length = 20 * B.length := by
  intro B
  induction B with
  | nil => intro _; rfl
  | cons b rest ih =>
    intro h
    have hb : b.length = 20 := h b (by simp)
    have hr := ih (fun x hx => h x (by simp [hx]))
    simp only [List.flatten_cons, List.length_append, hb, hr, List.length_cons]
    ring

theorem flatten20_getElem :
    ∀ (B : List (List Nat)), (∀ b ∈ B, b.length = 20) →
      ∀ (i j : Nat), j < 20 → ∀ (hi : i < B.length),
        B.flatten[20 * i + j]? = (B.get ⟨i, hi⟩)[j]? := by
  intro B
  induction B with
  | nil =>
    intro _ i j _ hi
    exact absurd hi (by simp)
  | cons b rest ih =>
    intro h i j hj hi
    have hb : b.length = 20 := h b (by simp)
    cases i with
    | zero =>
      have h0 : 20 * 0 + j = j := by omega
      rw [List.flatten_cons, h0, List.getElem?_append_left (by omega)]
      rfl
    | succ i' =>
      have hsplit : 20 * (i' + 1) + j = b.length + (20 * i' + j) := by omega
      rw [List.flatten_cons, hsplit, List.getElem?_append_right (by omega)]
      have hsub : b.length + (20 * i' + j) - b.length = 20 * i' + j := by omega
      rw [hsub]
      exact ih (fun x hx => h x (by simp [hx])) i' j hj (by simpa using hi)

theorem header_getElem (l : List Nat) (k : Nat) : ([2, 2, 0, 0] ++ l)[4 + k]? = l[k]? := by
  rw [List.getElem?_append_right (by simp)]
  have : 4 + k - ([2, 2, 0, 0] : List Nat).length = k := by simp
  rw [this]

/-! ## Startup table lemmas (read_config) -/

theorem read_config_outputs_entries (ips : List Nat) (nbs : List Int) (now : Int) :
    ∀ (outs : List (Nat × Nat × Nat)) (res : List (Nat × Nat) × List RipEntry),
      read_config_outputs ips nbs now outs = some res →
      res.2 = outs.map (fun o => RipEntry.mk o.2.2 o.2.1 o.2.2 now) := by
  intro outs
  induction outs with
  | nil =>
    intro res h
    simp only [read_config_outputs, Option.some.injEq] at h
    subst h
    rfl
  | cons o rest ih =>
    intro res h
    obtain ⟨port, metric, rid⟩ := o
    simp only [read_config_outputs] at h
    split_ifs at h
    cases hrec : read_config_outputs ips nbs now rest with
    | none => rw [hrec] at h; cases h
    | some pr =>
      rw [hrec] at h
      simp only [Option.some.injEq] at h
      subst h
      simpa using ih pr hrec

/-! ## Claim theorems: transmission policy, format check, expiry, startup,
and the concrete evaluations for the claims the code contradicts -/

/-- Claim C5: building an outbound packet does not mutate the stored table:
after rip_packet(table, receiver) the table holds exactly the entries it
held before (the source temporarily overwrites entry.metric with 16 and
restores the saved real_metric before moving on). -/
theorem C5_rip_packet_no_mutation (t : List RipEntry) (receiver : Nat) :
    (rip_packet t receiver).2 = t := by
  simp [rip_packet, rip_packet_entries_snd]

/-- Claim C4: split horizon with poisoned reverse.  In the packet built by
rip_packet(table, receiver), the record for the i-th entry carries the
entry's router id at byte offset 7 and, at byte offset 19, the metric 16
when the entry's next_hop equals the receiver and the true stored metric
otherwise — so no destination routed through the receiver is ever
advertised to it with a metric below 16. -/
theorem C4_split_horizon (t : List RipEntry) (receiver : Nat) (i : Nat) (h : i < t.length) :
    (rip_packet t receiver).1[4 + (20 * i + 7)]? = some (t.get ⟨i, h⟩).router_id ∧
    (rip_packet t receiver).1[4 + (20 * i + 19)]? =
      some (if (t.get ⟨i, h⟩).next_hop = receiver then 16 else (t.get ⟨i, h⟩).metric) := by
  have hfst : (rip_packet t receiver).1 =
      [2, 2, 0, 0] ++
        (t.map (fun e => rec20 e.router_id (if e.next_hop = receiver then 16 else e.metric))).flatten := by
    simp [rip_packet, rip_packet_entries_fst]
  have h20 : ∀ b ∈ t.map (fun e => rec20 e.router_id (if e.next_hop = receiver then 16 else e.metric)),
      b.length = 20 := by
    intro b hb
    rcases List.mem_map.mp hb with ⟨e, _, rfl⟩
    exact rec20_length _ _
  have hi' : i < (t.map (fun e => rec20 e.router_id (if e.next_hop = receiver then 16 else e.metric))).length := by
    simpa using h
  have hget : (t.map (fun e => rec20 e.router_id (if e.next_hop = receiver then 16 else e.metric))).get ⟨i, hi'⟩
      = rec20 (t.get ⟨i, h⟩).router_id
          (if (t.get ⟨i, h⟩).next_hop = receiver then 16 else (t.get ⟨i, h⟩).metric) := by
    simp
  constructor
  · rw [hfst, header_getElem, flatten20_getElem _ h20 i 7 (by omega) hi', hget, rec20_get7]
  · rw [hfst, header_getElem, flatten20_getElem _ h20 i 19 (by omega) hi', hget, rec20_get19]

/-- Witness for C4 at a concrete table: the single entry (destination 3,
metric 2, next_hop 5) is advertised to receiver 5 with id byte 3 and
poisoned metric byte 16. -/
theorem C4_split_horizon_witness :
    (rip_packet [RipEntry.mk 3 2 5 0] 5).1[4 + (20 * 0 + 7)]? = some 3 ∧
    (rip_packet [RipEntry.mk 3 2 5 0] 5).1[4 + (20 * 0 + 19)]? = some 16 := by
  have := C4_split_horizon [RipEntry.mk 3 2 5 0] 5 0 (by decide)
  simpa using this

/-- Claim C6: the three format checks run in order with the first failure
winning — length at least 4, then the fixed header bytes, then whole
20-byte records — and a datagram failing any check is dropped by the
receive branch of mainloop with the table unchanged. -/
theorem C6_format_check_order (p : List Nat) (t : List RipEntry) (now : Int) :
    (format_check p = some FormatError.TooShort ↔ p.length < 4) ∧
    (format_check p = some FormatError.BadHeader ↔
      ¬ p.length < 4 ∧ ¬ p.take 4 = [2, 2, 0, 0]) ∧
    (format_check p = some FormatError.Fragmented ↔
      ¬ p.length < 4 ∧ p.take 4 = [2, 2, 0, 0] ∧ ¬ (p.length - 4) % 20 = 0) ∧
    (∀ e : FormatError, format_check p = some e → receive_step p t now = some t) := by
  unfold receive_step format_check
  split_ifs with h1 h2 h3 <;> simp_all

/-- Witness for C6 at a concrete datagram: a 5-byte packet with a good
header fails the third check (fragmented) and the receive branch leaves a
table unchanged. -/
theorem C6_format_check_order_witness :
    format_check [2, 2, 0, 0, 1] = some FormatError.Fragmented ∧
    receive_step [2, 2, 0, 0, 1] [RipEntry.mk 1 0 1 5] 9 = some [RipEntry.mk 1 0 1 5] := by
  have h := C6_format_check_order [2, 2, 0, 0, 1] [RipEntry.mk 1 0 1 5] 9
  have h1 : format_check [2, 2, 0, 0, 1] = some FormatError.Fragmented :=
    h.2.2.1.mpr (by decide)
  exact ⟨h1, h.2.2.2 FormatError.Fragmented h1⟩

/-- Counterexample to claim C8 as stated: timeout_check does not exclude
the self-entry.  On a table whose head (self) entry has a stale running
timer, the sweep poisons it: metric 0 becomes 16 and the timer is cleared. -/
theorem C8_counterexample :
    timeout_check [RipEntry.mk 1 0 1 1] 100 = [RipEntry.mk 1 16 1 0] := by decide

/-- Claim C8 (amended): the sweep poisons exactly the entries — the
self-entry not excluded — whose timer is running (nonzero) and more than 30
seconds older than now, clearing their timer; and in the mainloop step,
where the self-timer refresh (at most 10 seconds of age) runs before the
sweep, the head entry's metric is never changed by the sweep. -/
theorem C8_sweep_characterization (t : List RipEntry) (now : Int) :
    (∀ i : Nat, (timeout_check t now)[i]? =
      (t[i]?).map (fun e => if ¬ e.timer = 0 ∧ e.timer < now - 30
        then { e with metric := 16, timer := 0 } else e)) ∧
    ((timeout_check (periodic_refresh t now) now).head?.map RipEntry.metric
      = t.head?.map RipEntry.metric) := by
  constructor
  · intro i
    induction t generalizing i with
    | nil => simp [timeout_check]
    | cons e rest ih =>
      cases i with
      | zero => simp [timeout_check]
      | succ n => simpa [timeout_check] using ih n
  · cases t with
    | nil => rfl
    | cons h rest =>
      unfold periodic_refresh
      by_cases h1 : h.timer < now - 10
      · have h2 : ¬ (¬ (now : Int) = 0 ∧ now < now - 30) := by omega
        simp [h1, timeout_check, h2]
      · have h2 : ¬ (¬ h.timer = 0 ∧ h.timer < now - 30) := by omega
        simp [h1, timeout_check, h2]

/-- Claim C10: the table read_config builds for a configuration it accepts
is exactly the self entry (metric 0, next_hop the local id, timer started
at now) followed by one entry per output link (output_port, metric,
router_id), with destination id and next hop both the declared neighbour
router id and the configured metric. -/
theorem C10_initial_table (router_num : Nat) (inputs : List Nat)
    (outputs : List (Nat × Nat × Nat)) (now : Int)
    (res : List (Nat × Nat) × List RipEntry)
    (h : read_config_table router_num inputs outputs now = some res) :
    res.2 = RipEntry.mk router_num 0 router_num now
      :: outputs.map (fun o => RipEntry.mk o.2.2 o.2.1 o.2.2 now) := by
  unfold read_config_table at h
  split_ifs at h
  cases hin : read_config_inputs router_num inputs with
  | none => rw [hin] at h; cases h
  | some pr =>
    obtain ⟨ips, nbs⟩ := pr
    rw [hin] at h
    dsimp only at h
    cases hout : read_config_outputs ips nbs now outputs with
    | none => rw [hout] at h; cases h
    | some qr =>
      obtain ⟨qports, qentries⟩ := qr
      rw [hout] at h
      dsimp only at h
      simp only [Option.some.injEq] at h
      subst h
      simpa using read_config_outputs_entries ips nbs now outputs (qports, qentries) hout

/-- Witness for C10 at a concrete accepted configuration: router 1, input
port 1200 (derived neighbour 2), one output link 1500-3-2. -/
theorem C10_initial_table_witness :
    ([RipEntry.mk 1 0 1 5, RipEntry.mk 2 3 2 5] : List RipEntry)
      = RipEntry.mk 1 0 1 5
        :: [(1500, 3, 2)].map (fun o => RipEntry.mk o.2.2 o.2.1 o.2.2 5) :=
  C10_initial_table 1 [1200] [(1500, 3, 2)] 5
    ([(2, 1500)], [RipEntry.mk 1 0 1 5, RipEntry.mk 2 3 2 5]) (by decide)

/-- Claim C7 is contradicted by the code: the router-id guard of
read_config is the chained comparison 1 >= router_num >= 64000, which no
number satisfies, so startup proceeds for identifiers outside 1-64000 in
both directions (here 70000 and 0) instead of exiting fatally. -/
theorem C7_router_id_check_dead :
    read_config_table 70000 [1200] [] 5 = some ([], [RipEntry.mk 70000 0 70000 5]) ∧
    read_config_table 0 [1200] [] 5 = some ([], [RipEntry.mk 0 0 0 5]) := by decide

/-- Claim C1 is contradicted by the code: a structurally valid packet from
router 2 (cost to sender 5) advertising the unknown destination 7 with
metric 16 makes update_table append an entry with the unclamped metric
16 + 5 = 21 > 16. -/
theorem C1_metric_clamp_violated :
    format_check (mkPacket 2 0 [(7, 16)]) = none ∧
    update_table (mkPacket 2 0 [(7, 16)]) [RipEntry.mk 1 0 1 5, RipEntry.mk 2 5 2 5] 9
      = some [RipEntry.mk 1 0 1 5, RipEntry.mk 2 5 2 9, RipEntry.mk 7 21 2 9] := by decide

/-- Claim C3 is contradicted by the code: a structurally valid packet whose
sender (router 9) has no table entry leaves metric_to_sender unassigned, so
update_table raises (UnboundLocalError) instead of skipping the records;
the call is modelled as none. -/
theorem C3_unknown_sender_crash :
    format_check (mkPacket 9 0 [(7, 1)]) = none ∧
    update_table (mkPacket 9 0 [(7, 1)]) [RipEntry.mk 1 0 1 5] 9 = none := by decide

/-- Counterexample to claim C2 as stated: the table knows destination 3
with metric 2 via next_hop 2; a packet from router 2 (cost to sender 1)
advertises destination 3 with metric 5, so the candidate is 6; the claim
says the candidate is always adopted, but the stored metric stays 2. -/
theorem C2_counterexample :
    ((update_table (mkPacket 2 0 [(3, 5)])
        [RipEntry.mk 1 0 1 5, RipEntry.mk 2 1 2 5, RipEntry.mk 3 2 2 5] 9).bind
      (fun tb => tb[2]?)).map RipEntry.metric = some 2 ∧
    ¬ ((update_table (mkPacket 2 0 [(3, 5)])
        [RipEntry.mk 1 0 1 5, RipEntry.mk 2 1 2 5, RipEntry.mk 3 2 2 5] 9).bind
      (fun tb => tb[2]?)).map RipEntry.metric = some (5 + 1) := by decide

/-- Counterexample to claim C9 as stated: applying the same structurally
valid packet twice is not stable.  The packet from router 2 re-advertises
router 2 itself with metric 11 (candidate 16, poisoning the route to the
sender) and destination 3 with metric 2 (candidate 7, adopted); on the
second application the cost to the sender has become 16, so destination 3
is poisoned from 7 to 16. -/
theorem C9_counterexample :
    ¬ (((update_table (mkPacket 2 0 [(2, 11), (3, 2)])
          [RipEntry.mk 1 0 1 5, RipEntry.mk 2 5 2 5, RipEntry.mk 3 9 2 5] 100).bind
        (fun t1 => update_table (mkPacket 2 0 [(2, 11), (3, 2)]) t1 100)).map (List.map proj)
      = (update_table (mkPacket 2 0 [(2, 11), (3, 2)])
          [RipEntry.mk 1 0 1 5, RipEntry.mk 2 5 2 5, RipEntry.mk 3 9 2 5] 100).map
          (List.map proj)) := by decide

/-! ## Indexing facts about mkPacket and the characterization of the two
passes of update_table on packets of that shape -/

theorem mkPacket_blocks_length (sender m0 : Nat) (R : List (Nat × Nat)) :
    ∀ b ∈ (rec20 sender m0 :: R.map (fun r => rec20 r.1 r.2)), b.length = 20 := by
  intro b hb
  rcases List.mem_cons.mp hb with h | h
  · subst h; exact rec20_length _ _
  · rcases List.mem_map.mp h with ⟨r, _, rfl⟩
    exact rec20_length _ _

theorem mkPacket_length (sender m0 : Nat) (R : List (Nat × Nat)) :
    (mkPacket sender m0 R).length = 24 + 20 * R.length := by
  have := flatten20_length _ (mkPacket_blocks_length sender m0 R)
  simp only [mkPacket, List.length_append, this, List.length_cons, List.length_map,
    List.length_nil]
  omega

theorem mkPacket_sender_byte (sender m0 : Nat) (R : List (Nat × Nat)) :
    (mkPacket sender m0 R)[11]? = some sender := by
  have h11 : (11 : Nat) = 4 + (20 * 0 + 7) := by norm_num
  rw [mkPacket, h11, header_getElem,
    flatten20_getElem _ (mkPacket_blocks_length sender m0 R) 0 7 (by omega) (by simp)]
  rfl

theorem mkPacket_rec_id (sender m0 : Nat) (R : List (Nat × Nat)) (k : Nat)
    (hk : k < R.length) :
    (mkPacket sender m0 R)[24 + 20 * k + 7]? = some (R.get ⟨k, hk⟩).1 := by
  have harr : 24 + 20 * k + 7 = 4 + (20 * (k + 1) + 7) := by ring
  have hk' : k + 1 < (rec20 sender m0 :: R.map (fun r => rec20 r.1 r.2)).length := by
    simp [Nat.succ_lt_succ, hk]
  rw [mkPacket, harr, header_getElem,
    flatten20_getElem _ (mkPacket_blocks_length sender m0 R) (k + 1) 7 (by omega) hk']
  have : (rec20 sender m0 :: R.map (fun r => rec20 r.1 r.2)).get ⟨k + 1, hk'⟩
      = rec20 (R.get ⟨k, hk⟩).1 (R.get ⟨k, hk⟩).2 := by
    simp [List.get_cons_succ]
  rw [this, rec20_get7]

theorem mkPacket_rec_metric (sender m0 : Nat) (R : List (Nat × Nat)) (k : Nat)
    (hk : k < R.length) :
    (mkPacket sender m0 R)[24 + 20 * k + 19]? = some (R.get ⟨k, hk⟩).2 := by
  have harr : 24 + 20 * k + 19 = 4 + (20 * (k + 1) + 19) := by ring
  have hk' : k + 1 < (rec20 sender m0 :: R.map (fun r => rec20 r.1 r.2)).length := by
    simp [Nat.succ_lt_succ, hk]
  rw [mkPacket, harr, header_getElem,
    flatten20_getElem _ (mkPacket_blocks_length sender m0 R) (k + 1) 19 (by omega) hk']
  have : (rec20 sender m0 :: R.map (fun r => rec20 r.1 r.2)).get ⟨k + 1, hk'⟩
      = rec20 (R.get ⟨k, hk⟩).1 (R.get ⟨k, hk⟩).2 := by
    simp [List.get_cons_succ]
  rw [this, rec20_get19]

theorem contact_scan_mk (sender m0 self : Nat) (R : List (Nat × Nat))
    (hself : ∀ r ∈ R, ¬ r.1 = self) :
    ∀ (n k fuel : Nat), R.length = k + n → n ≤ fuel →
      contact_scan (mkPacket sender m0 R) self fuel (24 + 20 * k)
        = some (24 + 20 * R.length, none) := by
  intro n
  induction n with
  | zero =>
    intro k fuel hlen _
    rw [contact_scan.eq_def]; dsimp only
    have hnotlt : ¬ 24 + 20 * k < (mkPacket sender m0 R).length := by
      rw [mkPacket_length]; omega
    rw [if_neg hnotlt]
    have hk : 24 + 20 * k = 24 + 20 * R.length := by omega
    rw [hk]
  | succ n ih =>
    intro k fuel hlen hfuel
    have hk : k < R.length := by omega
    rw [contact_scan.eq_def]; dsimp only
    have hlt : 24 + 20 * k < (mkPacket sender m0 R).length := by
      rw [mkPacket_length]; omega
    rw [if_pos hlt]
    cases fuel with
    | zero => omega
    | succ f =>
      rw [mkPacket_rec_id sender m0 R k hk]
      have hne : ¬ (R.get ⟨k, hk⟩).1 = self := hself _ (List.get_mem R k hk)
      dsimp only
      rw [if_neg hne]
      have harr : 24 + 20 * k + 20 = 24 + 20 * (k + 1) := by ring
      rw [harr]
      exact ih (k + 1) f (by omega) (by omega)

theorem loop2_mk (sender m0 msv : Nat) (R : List (Nat × Nat)) (crs : List Nat) (now : Int) :
    ∀ (n k fuel : Nat) (t : List RipEntry), R.length = k + n → n ≤ fuel →
      loop2 (mkPacket sender m0 R) sender (some msv) crs now fuel (24 + 20 * k) t
        = some (apply_records sender msv crs now (R.drop k) t) := by
  intro n
  induction n with
  | zero =>
    intro k fuel t hlen _
    rw [loop2.eq_def]; dsimp only
    have hnotlt : ¬ 24 + 20 * k < (mkPacket sender m0 R).length := by
      rw [mkPacket_length]; omega
    rw [if_neg hnotlt]
    have hdrop : R.drop k = [] := List.drop_eq_nil_of_le (by omega)
    rw [hdrop]
    rfl
  | succ n ih =>
    intro k fuel t hlen hfuel
    have hk : k < R.length := by omega
    rw [loop2.eq_def]; dsimp only
    have hlt : 24 + 20 * k < (mkPacket sender m0 R).length := by
      rw [mkPacket_length]; omega
    rw [if_pos hlt]
    cases fuel with
    | zero => omega
    | succ f =>
      rw [mkPacket_rec_id sender m0 R k hk, mkPacket_rec_metric sender m0 R k hk]
      dsimp only
      have harr : 24 + 20 * k + 20 = 24 + 20 * (k + 1) := by ring
      rw [harr, ih (k + 1) f _ (by omega) (by omega)]
      have hdropk : R.drop k = R.get ⟨k, hk⟩ :: R.drop (k + 1) := List.drop_eq_getElem_cons hk
      rw [hdropk]
      rcases hr : R.get ⟨k, hk⟩ with ⟨id, adv⟩
      rfl

theorem loop1_step_mk (sender m0 self : Nat) (R : List (Nat × Nat)) (now : Int)
    (hself : ∀ r ∈ R, ¬ r.1 = self) (st : L1State) (e : RipEntry) (k : Nat)
    (hk : k ≤ R.length) (hidx : st.index = 24 + 20 * k) :
    ∃ k', k' ≤ R.length ∧
      loop1_step (mkPacket sender m0 R) self sender now st e
        = some (L1State.mk (if ¬ e.router_id = self then st.crs ++ [e.router_id] else st.crs)
            (if e.router_id = sender then some e.metric else st.ms) (24 + 20 * k'),
          refresh sender now e) := by
  obtain ⟨rid, m, nh, tm⟩ := e
  obtain ⟨crs0, ms0, idx0⟩ := st
  simp only at hidx
  by_cases he : rid = sender
  · by_cases hm : m = 16
    · refine ⟨R.length, le_refl _, ?_⟩
      unfold loop1_step refresh
      dsimp only
      rw [hidx,
        contact_scan_mk sender m0 self R hself (R.length - k) k _ (by omega)
          (by rw [mkPacket_length]; omega)]
      simp [he, hm]
    · refine ⟨k, hk, ?_⟩
      unfold loop1_step refresh
      dsimp only
      rw [hidx]
      simp [he, hm]
  · refine ⟨k, hk, ?_⟩
    unfold loop1_step refresh
    dsimp only
    rw [hidx]
    simp [he]

theorem crs_append (crs0 : List Nat) (self : Nat) (e : RipEntry) (rest : List RipEntry) :
    (if ¬ e.router_id = self then crs0 ++ [e.router_id] else crs0) ++ nonSelf self rest
      = crs0 ++ nonSelf self (e :: rest) := by
  by_cases hs : e.router_id = self <;> simp [nonSelf, List.filterMap_cons, hs]

theorem loop1_char (sender m0 self : Nat) (R : List (Nat × Nat)) (now : Int)
    (hself : ∀ r ∈ R, ¬ r.1 = self) :
    ∀ (t : List RipEntry) (st : L1State) (k : Nat), k ≤ R.length → st.index = 24 + 20 * k →
      ∃ k', k' ≤ R.length ∧
        loop1 (mkPacket sender m0 R) self sender now st t
          = some (L1State.mk (st.crs ++ nonSelf self t) (msFold sender st.ms t) (24 + 20 * k'),
              t.map (refresh sender now)) := by
  intro t
  induction t with
  | nil =>
    intro st k hk hidx
    refine ⟨k, hk, ?_⟩
    obtain ⟨crs0, ms0, idx0⟩ := st
    simp only at hidx
    simp [loop1, nonSelf, msFold, hidx]
  | cons e rest ih =>
    intro st k hk hidx
    obtain ⟨k1, hk1, hstep⟩ := loop1_step_mk sender m0 self R now hself st e k hk hidx
    obtain ⟨k2, hk2, hrest⟩ := ih
      (L1State.mk (if ¬ e.router_id = self then st.crs ++ [e.router_id] else st.crs)
        (if e.router_id = sender then some e.metric else st.ms) (24 + 20 * k1)) k1 hk1 rfl
    refine ⟨k2, hk2, ?_⟩
    simp only [loop1]
    rw [hstep]
    dsimp only
    rw [hrest]
    dsimp only
    rw [crs_append]
    rfl

theorem update_table_mk (sender m0 ms : Nat) (R : List (Nat × Nat)) (h : RipEntry)
    (rest : List RipEntry) (now : Int)
    (hself : ∀ r ∈ R, ¬ r.1 = h.router_id)
    (hms : msFold sender none (h :: rest) = some ms) :
    update_table (mkPacket sender m0 R) (h :: rest) now
      = some (apply_records sender ms (nonSelf h.router_id (h :: rest)) now R
          ((h :: rest).map (refresh sender now))) := by
  unfold update_table
  rw [mkPacket_sender_byte]
  dsimp only
  obtain ⟨k', hk', hloop1⟩ :=
    loop1_char sender m0 h.router_id R now hself (h :: rest) (L1State.mk [] none 24) 0
      (by omega) rfl
  rw [hloop1]
  dsimp only
  rw [hms, List.nil_append]
  have h24 : (24 : Nat) = 24 + 20 * 0 := by norm_num
  rw [h24,
    loop2_mk sender m0 ms R (nonSelf h.router_id (h :: rest)) now R.length 0 _ _
      (by omega) (by rw [mkPacket_length]; omega),
    List.drop_zero]

/-- Claim C2 (amended): for any packet from router 2 (an arbitrary sender
record plus one record advertising destination 3 with metric adv) and any
table [self 1, sender 2 with metric ms, destination 3 via next_hop 2],
update_table refreshes the timers of the sender entry and of the
destination entry; the destination entry is poisoned (metric 16, timer
cleared) when the candidate adv + ms reaches 16, adopts the candidate when
it strictly improves the stored metric, and otherwise keeps its metric
unchanged — a candidate larger than the stored metric but below 16 is not
adopted. -/
theorem C2_next_hop_update (m1 nh1 ms nh2 m3 adv m0 : Nat) (tm1 tm2 tm3 now : Int) :
    update_table (mkPacket 2 m0 [(3, adv)])
        [RipEntry.mk 1 m1 nh1 tm1, RipEntry.mk 2 ms nh2 tm2, RipEntry.mk 3 m3 2 tm3] now
      = some [RipEntry.mk 1 m1 nh1 tm1, RipEntry.mk 2 ms nh2 now,
          if 16 ≤ adv + ms then RipEntry.mk 3 16 2 0
          else if adv + ms < m3 then RipEntry.mk 3 (adv + ms) 2 now
          else RipEntry.mk 3 m3 2 now] := by
  rw [update_table_mk 2 m0 ms [(3, adv)]
    (RipEntry.mk 1 m1 nh1 tm1) [RipEntry.mk 2 ms nh2 tm2, RipEntry.mk 3 m3 2 tm3] now
    (by simp) (by simp [msFold])]
  by_cases hc : 16 ≤ adv + ms
  · simp [apply_records, apply_record, nonSelf, refresh, msFold, hc]
  · by_cases ha : adv + ms < m3 <;>
      simp [apply_records, apply_record, nonSelf, refresh, msFold, hc, ha]

/-! ## Pure-list facts about the second pass, used for the idempotence
analysis -/

theorem stepAll_cons (s ms : Nat) (crs : List Nat) (now : Int) (r : Nat × Nat)
    (rest : List (Nat × Nat)) (e : RipEntry) :
    stepAll s ms crs now (r :: rest) e
      = stepAll s ms crs now rest
          (if r.1 ∈ crs then apply_record s r.1 (r.2 + ms) now e else e) := rfl

theorem projStepAll_cons (s ms : Nat) (crs : List Nat) (r : Nat × Nat)
    (rest : List (Nat × Nat)) (x : Nat × Nat × Nat) :
    projStepAll s ms crs (r :: rest) x
      = projStepAll s ms crs rest
          (if r.1 ∈ crs then projApply s r.1 (r.2 + ms) x else x) := rfl

theorem apply_record_rid (s id c : Nat) (now : Int) (e : RipEntry) :
    (apply_record s id c now e).router_id = e.router_id := by
  unfold apply_record
  dsimp only
  split_ifs <;> rfl

theorem apply_record_not (s id c : Nat) (now : Int) (e : RipEntry)
    (hne : ¬ e.router_id = id) : apply_record s id c now e = e := by
  unfold apply_record
  rw [if_neg hne]

theorem stepAll_rid (s ms : Nat) (crs : List Nat) (now : Int) :
    ∀ (R : List (Nat × Nat)) (e : RipEntry),
      (stepAll s ms crs now R e).router_id = e.router_id := by
  intro R
  induction R with
  | nil => intro e; rfl
  | cons r rest ih =>
    intro e
    rw [stepAll_cons, ih]
    split_ifs with hcr
    · exact apply_record_rid _ _ _ _ _
    · rfl

theorem stepAll_not (s ms : Nat) (crs : List Nat) (now : Int) :
    ∀ (R : List (Nat × Nat)) (e : RipEntry), ¬ e.router_id ∈ R.map Prod.fst →
      stepAll s ms crs now R e = e := by
  intro R
  induction R with
  | nil => intro e _; rfl
  | cons r rest ih =>
    intro e he
    rw [List.map_cons, List.mem_cons, not_or] at he
    rw [stepAll_cons]
    have hg : (if r.1 ∈ crs then apply_record s r.1 (r.2 + ms) now e else e) = e := by
      split_ifs with hcr
      · exact apply_record_not _ _ _ _ _ he.1
      · rfl
    rw [hg]
    exact ih e he.2

theorem refresh_rid (s : Nat) (now : Int) (e : RipEntry) :
    (refresh s now e).router_id = e.router_id := by
  unfold refresh
  split_ifs <;> rfl

theorem proj_refresh (s : Nat) (now : Int) (e : RipEntry) : proj (refresh s now e) = proj e := by
  unfold refresh proj
  split_ifs <;> rfl

theorem refresh_not (s : Nat) (now : Int) (e : RipEntry) (hne : ¬ e.router_id = s) :
    refresh s now e = e := by
  unfold refresh
  rw [if_neg hne]

theorem proj_apply_record (s id c : Nat) (now : Int) (e : RipEntry) :
    proj (apply_record s id c now e) = projApply s id c (proj e) := by
  obtain ⟨rid, m, nh, tm⟩ := e
  unfold apply_record projApply proj
  dsimp only
  split_ifs <;> rfl

theorem proj_stepAll (s ms : Nat) (crs : List Nat) (now : Int) :
    ∀ (R : List (Nat × Nat)) (e : RipEntry),
      proj (stepAll s ms crs now R e) = projStepAll s ms crs R (proj e) := by
  intro R
  induction R with
  | nil => intro e; rfl
  | cons r rest ih =>
    intro e
    rw [stepAll_cons, projStepAll_cons, ih]
    congr 1
    split_ifs with hcr
    · exact proj_apply_record _ _ _ _ _
    · rfl

theorem projApply_fst (s id c : Nat) (x : Nat × Nat × Nat) : (projApply s id c x).1 = x.1 := by
  unfold projApply
  split_ifs <;> rfl

theorem projApply_not (s id c : Nat) (x : Nat × Nat × Nat) (hne : ¬ x.1 = id) :
    projApply s id c x = x := by
  unfold projApply
  rw [if_neg hne]

theorem projStepAll_fst (s ms : Nat) (crs : List Nat) :
    ∀ (R : List (Nat × Nat)) (x : Nat × Nat × Nat), (projStepAll s ms crs R x).1 = x.1 := by
  intro R
  induction R with
  | nil => intro x; rfl
  | cons r rest ih =>
    intro x
    rw [projStepAll_cons, ih]
    split_ifs with hcr
    · exact projApply_fst _ _ _ _
    · rfl

theorem projStepAll_not (s ms : Nat) (crs : List Nat) :
    ∀ (R : List (Nat × Nat)) (x : Nat × Nat × Nat), ¬ x.1 ∈ R.map Prod.fst →
      projStepAll s ms crs R x = x := by
  intro R
  induction R with
  | nil => intro x _; rfl
  | cons r rest ih =>
    intro x hx
    rw [List.map_cons, List.mem_cons, not_or] at hx
    rw [projStepAll_cons]
    have hg : (if r.1 ∈ crs then projApply s r.1 (r.2 + ms) x else x) = x := by
      split_ifs with hcr
      · exact projApply_not _ _ _ _ hx.1
      · rfl
    rw [hg]
    exact ih x hx.2

theorem projApply_idem (s id c : Nat) (x : Nat × Nat × Nat) (hm : x.2.1 ≤ 16) :
    projApply s id c (projApply s id c x) = projApply s id c x := by
  obtain ⟨r, m, nh⟩ := x
  simp only at hm
  unfold projApply
  dsimp only
  by_cases h1 : r = id
  · rw [if_pos h1]
    by_cases h2 : 16 ≤ c ∧ nh = s
    · rw [if_pos h2]
      dsimp only
      rw [if_pos h1, if_pos h2]
    · rw [if_neg h2]
      by_cases h3 : c < m
      · rw [if_pos h3]
        dsimp only
        rw [if_pos h1]
        have hc16 : ¬ (16 ≤ c ∧ s = s) := by
          intro hh
          rcases h2 with _
          omega
        rw [if_neg hc16, if_neg (by omega : ¬ c < c)]
      · rw [if_neg h3]
        dsimp only
        rw [if_pos h1, if_neg h2, if_neg h3]
  · rw [if_neg h1, if_neg h1]

theorem projStepAll_double (s ms : Nat) (crs1 crs2 : List Nat) :
    ∀ (R : List (Nat × Nat)) (x : Nat × Nat × Nat),
      (R.map Prod.fst).Nodup → x.2.1 ≤ 16 → (x.1 ∈ crs1 ↔ x.1 ∈ crs2) →
      projStepAll s ms crs2 R (projStepAll s ms crs1 R x) = projStepAll s ms crs1 R x := by
  intro R
  induction R with
  | nil => intro x _ _ _; rfl
  | cons r rest ih =>
    intro x hnodup hm hiff
    have hnodup' : (r.1 :: rest.map Prod.fst).Nodup := by simpa using hnodup
    rcases List.nodup_cons.mp hnodup' with ⟨hr1, hr2⟩
    by_cases hx : x.1 = r.1
    · rw [hx] at hiff
      simp only [projStepAll_cons]
      by_cases hcr : r.1 ∈ crs1
      · have hcr2 : r.1 ∈ crs2 := hiff.mp hcr
        rw [if_pos hcr, if_pos hcr2]
        have hfst : (projApply s r.1 (r.2 + ms) x).1 = x.1 := projApply_fst _ _ _ _
        have hnot : ¬ (projApply s r.1 (r.2 + ms) x).1 ∈ rest.map Prod.fst := by
          rw [hfst, hx]; exact hr1
        rw [projStepAll_not s ms crs1 rest _ hnot, projApply_idem s r.1 (r.2 + ms) x hm,
          projStepAll_not s ms crs2 rest _ hnot]
      · have hcr2 : ¬ r.1 ∈ crs2 := fun hh => hcr (hiff.mpr hh)
        rw [if_neg hcr, if_neg hcr2]
        have hnot : ¬ x.1 ∈ rest.map Prod.fst := by rw [hx]; exact hr1
        rw [projStepAll_not s ms crs1 rest _ hnot, projStepAll_not s ms crs2 rest _ hnot]
    · simp only [projStepAll_cons]
      have g1x : (if r.1 ∈ crs1 then projApply s r.1 (r.2 + ms) x else x) = x := by
        split_ifs with hc
        · exact projApply_not _ _ _ _ hx
        · rfl
      rw [g1x]
      have hfst : (projStepAll s ms crs1 rest x).1 = x.1 := projStepAll_fst _ _ _ _ _
      have g2x : (if r.1 ∈ crs2
            then projApply s r.1 (r.2 + ms) (projStepAll s ms crs1 rest x)
            else projStepAll s ms crs1 rest x) = projStepAll s ms crs1 rest x := by
        split_ifs with hc
        · exact projApply_not _ _ _ _ (by rw [hfst]; exact hx)
        · rfl
      rw [g2x]
      exact ih x hr2 hm hiff

theorem projStepAll_insert (s ms : Nat) (crs2 : List Nat) :
    ∀ (R : List (Nat × Nat)) (id adv : Nat),
      (R.map Prod.fst).Nodup → (id, adv) ∈ R → adv + ms ≤ 16 →
      projStepAll s ms crs2 R (id, adv + ms, s) = (id, adv + ms, s) := by
  intro R
  induction R with
  | nil =>
    intro id adv _ hmem _
    cases hmem
  | cons r rest ih =>
    intro id adv hnodup hmem hle
    have hnodup' : (r.1 :: rest.map Prod.fst).Nodup := by simpa using hnodup
    rcases List.nodup_cons.mp hnodup' with ⟨hr1, hr2⟩
    rw [projStepAll_cons]
    rcases List.mem_cons.mp hmem with heq | hmem'
    · have hrr : r = (id, adv) := heq.symm
      subst hrr
      have hg : (if (id : Nat) ∈ crs2 then projApply s id (adv + ms) (id, adv + ms, s)
            else ((id, adv + ms, s) : Nat × Nat × Nat)) = (id, adv + ms, s) := by
        split_ifs with hcr
        · unfold projApply
          dsimp only
          rw [if_pos rfl]
          by_cases h16 : 16 ≤ adv + ms
          · have h16' : adv + ms = 16 := by omega
            rw [if_pos ⟨h16, rfl⟩, h16']
          · rw [if_neg (fun hh => h16 hh.1), if_neg (by omega : ¬ adv + ms < adv + ms)]
        · rfl
      rw [hg]
      exact projStepAll_not s ms crs2 rest _ (by simpa using hr1)
    · have hid_rest : id ∈ rest.map Prod.fst := List.mem_map.mpr ⟨(id, adv), hmem', rfl⟩
      have hne : ¬ (id : Nat) = r.1 := fun hh => hr1 (hh ▸ hid_rest)
      have hg : (if r.1 ∈ crs2 then projApply s r.1 (r.2 + ms) (id, adv + ms, s)
            else ((id, adv + ms, s) : Nat × Nat × Nat)) = (id, adv + ms, s) := by
        split_ifs with hcr
        · exact projApply_not _ _ _ _ hne
        · rfl
      rw [hg]
      exact ih id adv hr2 hmem' hle

theorem apply_records_char (s ms : Nat) (crs : List Nat) (now : Int) :
    ∀ (R : List (Nat × Nat)) (t : List RipEntry), (R.map Prod.fst).Nodup →
      apply_records s ms crs now R t
        = t.map (stepAll s ms crs now R) ++ insertsOf s ms crs now R := by
  intro R
  induction R with
  | nil =>
    intro t _
    show t = t.map (stepAll s ms crs now []) ++ insertsOf s ms crs now []
    have hmap : t.map (stepAll s ms crs now []) = t :=
      (List.map_congr_left (fun e _ => (rfl : stepAll s ms crs now [] e = id e))).trans
        (List.map_id t)
    rw [hmap]
    simp [insertsOf]
  | cons r rest ih =>
    intro t hnodup
    have hnodup' : (r.1 :: rest.map Prod.fst).Nodup := by simpa using hnodup
    rcases List.nodup_cons.mp hnodup' with ⟨hr1, hr2⟩
    obtain ⟨id, adv⟩ := r
    by_cases hcr : id ∈ crs
    · show apply_records s ms crs now rest
          (if id ∈ crs then t.map (apply_record s id (adv + ms) now)
           else t ++ [RipEntry.mk id (adv + ms) s now]) = _
      rw [if_pos hcr, ih _ hr2, List.map_map]
      have hmap : t.map (stepAll s ms crs now rest ∘ apply_record s id (adv + ms) now)
          = t.map (stepAll s ms crs now ((id, adv) :: rest)) := by
        refine List.map_congr_left (fun e _ => ?_)
        rw [stepAll_cons]
        dsimp only
        rw [if_pos hcr]
        rfl
      rw [hmap]
      have hins : insertsOf s ms crs now rest = insertsOf s ms crs now ((id, adv) :: rest) := by
        simp [insertsOf, hcr]
      rw [hins]
    · show apply_records s ms crs now rest
          (if id ∈ crs then t.map (apply_record s id (adv + ms) now)
           else t ++ [RipEntry.mk id (adv + ms) s now]) = _
      rw [if_neg hcr, ih _ hr2, List.map_append]
      have hnew : stepAll s ms crs now rest (RipEntry.mk id (adv + ms) s now)
          = RipEntry.mk id (adv + ms) s now :=
        stepAll_not s ms crs now rest _ (by simpa using hr1)
      have hmap : t.map (stepAll s ms crs now rest)
          = t.map (stepAll s ms crs now ((id, adv) :: rest)) := by
        refine List.map_congr_left (fun e _ => ?_)
        rw [stepAll_cons]
        dsimp only
        rw [if_neg hcr]
      have hins : insertsOf s ms crs now ((id, adv) :: rest)
          = RipEntry.mk id (adv + ms) s now :: insertsOf s ms crs now rest := by
        simp [insertsOf, hcr]
      rw [hmap, hins]
      simp [hnew]

theorem refresh_metric (s : Nat) (now : Int) (e : RipEntry) :
    (refresh s now e).metric = e.metric := by
  unfold refresh
  split_ifs <;> rfl

theorem msFold_append (s : Nat) (acc : Option Nat) (l1 l2 : List RipEntry) :
    msFold s acc (l1 ++ l2) = msFold s (msFold s acc l1) l2 :=
  List.foldl_append _ _ _ _

theorem msFold_no_sender (s : Nat) :
    ∀ (l : List RipEntry) (acc : Option Nat), (∀ e ∈ l, ¬ e.router_id = s) →
      msFold s acc l = acc := by
  intro l
  induction l with
  | nil => intro acc _; rfl
  | cons e rest ih =>
    intro acc hall
    show msFold s (if e.router_id = s then some e.metric else acc) rest = acc
    rw [if_neg (hall e (by simp))]
    exact ih acc (fun x hx => hall x (by simp [hx]))

theorem msFold_map (s : Nat) (f : RipEntry → RipEntry)
    (hrid : ∀ e, (f e).router_id = e.router_id)
    (hmet : ∀ e, e.router_id = s → (f e).metric = e.metric) :
    ∀ (t : List RipEntry) (acc : Option Nat), msFold s acc (t.map f) = msFold s acc t := by
  intro t
  induction t with
  | nil => intro acc; rfl
  | cons e rest ih =>
    intro acc
    show msFold s (if (f e).router_id = s then some (f e).metric else acc) (rest.map f)
      = msFold s (if e.router_id = s then some e.metric else acc) rest
    rw [ih]
    by_cases hs : e.router_id = s
    · rw [if_pos (by rw [hrid]; exact hs), if_pos hs, hmet e hs]
    · rw [if_neg (by rw [hrid]; exact hs), if_neg hs]

theorem nonSelf_append (self : Nat) (l1 l2 : List RipEntry) :
    nonSelf self (l1 ++ l2) = nonSelf self l1 ++ nonSelf self l2 :=
  List.filterMap_append _ _ _

theorem nonSelf_map_rid (self : Nat) (f : RipEntry → RipEntry)
    (hf : ∀ e, (f e).router_id = e.router_id) :
    ∀ t : List RipEntry, nonSelf self (t.map f) = nonSelf self t := by
  intro t
  induction t with
  | nil => rfl
  | cons e rest ih =>
    show nonSelf self (f e :: rest.map f) = nonSelf self (e :: rest)
    unfold nonSelf
    rw [List.filterMap_cons, List.filterMap_cons]
    unfold nonSelf at ih
    rw [ih, hf e]

theorem mem_nonSelf (self : Nat) (t : List RipEntry) (x : Nat) :
    x ∈ nonSelf self t ↔ ¬ x = self ∧ x ∈ t.map RipEntry.router_id := by
  constructor
  · intro hx
    rcases List.mem_filterMap.mp hx with ⟨e, he, hfe⟩
    by_cases hs : ¬ e.router_id = self
    · rw [if_pos hs] at hfe
      cases hfe
      exact ⟨hs, List.mem_map.mpr ⟨e, he, rfl⟩⟩
    · rw [if_neg hs] at hfe
      cases hfe
  · rintro ⟨hne, hmem⟩
    rcases List.mem_map.mp hmem with ⟨e, he, rfl⟩
    exact List.mem_filterMap.mpr ⟨e, he, by rw [if_pos hne]⟩

theorem insertsOf_eq_nil (s ms : Nat) (crs : List Nat) (now : Int) (R : List (Nat × Nat))
    (hall : ∀ r ∈ R, r.1 ∈ crs) : insertsOf s ms crs now R = [] := by
  unfold insertsOf
  have hfil : R.filter (fun r => ¬ r.1 ∈ crs) = [] :=
    List.filter_eq_nil_iff.mpr (by intro r hr; simpa using hall r hr)
  rw [hfil]
  rfl

/-- Claim C9 (amended): applying the same structurally valid packet twice
leaves every entry's destination id, metric and next hop stable, provided
the sender has an entry in the table (msFold yields its cost ms), every
stored metric is at most 16, the records carry pairwise distinct
destination ids that include neither the sender nor the local router id,
and every record for a destination absent from the table has
advertised + cost at most 16.  (The counterexample shows the side
conditions are needed: re-advertising the sender itself can poison the
cost to the sender between the two applications.) -/
theorem C9_idempotence_amended
    (h : RipEntry) (rest : List RipEntry) (R : List (Nat × Nat))
    (sender m0 ms : Nat) (now : Int)
    (hmet : ∀ e ∈ h :: rest, e.metric ≤ 16)
    (hms : msFold sender none (h :: rest) = some ms)
    (hRnodup : (R.map Prod.fst).Nodup)
    (hRsender : ¬ sender ∈ R.map Prod.fst)
    (hRself : ¬ h.router_id ∈ R.map Prod.fst)
    (hins : ∀ r ∈ R, ¬ r.1 ∈ (h :: rest).map RipEntry.router_id → r.2 + ms ≤ 16) :
    ((update_table (mkPacket sender m0 R) (h :: rest) now).bind
        (fun t1 => update_table (mkPacket sender m0 R) t1 now)).map (List.map proj)
      = (update_table (mkPacket sender m0 R) (h :: rest) now).map (List.map proj) := by
  have hself : ∀ r ∈ R, ¬ r.1 = h.router_id := by
    intro r hr heq
    exact hRself (heq ▸ List.mem_map.mpr ⟨r, hr, rfl⟩)
  rw [update_table_mk sender m0 ms R h rest now hself hms, Option.some_bind,
    apply_records_char sender ms (nonSelf h.router_id (h :: rest)) now R _ hRnodup]
  have hcons : ((h :: rest).map (refresh sender now)).map
        (stepAll sender ms (nonSelf h.router_id (h :: rest)) now R)
      ++ insertsOf sender ms (nonSelf h.router_id (h :: rest)) now R
      = (stepAll sender ms (nonSelf h.router_id (h :: rest)) now R (refresh sender now h))
        :: (((rest.map (refresh sender now)).map
              (stepAll sender ms (nonSelf h.router_id (h :: rest)) now R))
            ++ insertsOf sender ms (nonSelf h.router_id (h :: rest)) now R) := by
    rw [List.map_cons, List.map_cons, List.cons_append]
  rw [hcons]
  have hrid2 : (stepAll sender ms (nonSelf h.router_id (h :: rest)) now R
      (refresh sender now h)).router_id = h.router_id := by
    rw [stepAll_rid, refresh_rid]
  have hstepAll_pres : ∀ e : RipEntry, e.router_id = sender →
      stepAll sender ms (nonSelf h.router_id (h :: rest)) now R e = e := by
    intro e he
    exact stepAll_not _ _ _ _ R e (by rw [he]; exact hRsender)
  have hInot : ∀ e ∈ insertsOf sender ms (nonSelf h.router_id (h :: rest)) now R,
      ¬ e.router_id = sender := by
    intro e he heq
    rcases List.mem_map.mp he with ⟨r, hrf, rfl⟩
    have hrR : r ∈ R := (List.mem_filter.mp hrf).1
    have heq' : r.1 = sender := heq
    exact hRsender (heq' ▸ List.mem_map.mpr ⟨r, hrR, rfl⟩)
  have hms2 : msFold sender none
      ((stepAll sender ms (nonSelf h.router_id (h :: rest)) now R (refresh sender now h))
        :: (((rest.map (refresh sender now)).map
              (stepAll sender ms (nonSelf h.router_id (h :: rest)) now R))
            ++ insertsOf sender ms (nonSelf h.router_id (h :: rest)) now R)) = some ms := by
    rw [← hcons, msFold_append, msFold_no_sender sender _ _ hInot,
      msFold_map sender _ (fun e => stepAll_rid sender ms _ now R e)
        (fun e he => by rw [hstepAll_pres e he]),
      msFold_map sender _ (refresh_rid sender now) (fun e _ => refresh_metric sender now e)]
    exact hms
  have hself2 : ∀ r ∈ R,
      ¬ r.1 = (stepAll sender ms (nonSelf h.router_id (h :: rest)) now R
        (refresh sender now h)).router_id := by
    intro r hr heq
    rw [hrid2] at heq
    exact hself r hr heq
  rw [update_table_mk sender m0 ms R _ _ now hself2 hms2]
  have hcrs2 : nonSelf (stepAll sender ms (nonSelf h.router_id (h :: rest)) now R
        (refresh sender now h)).router_id
      ((stepAll sender ms (nonSelf h.router_id (h :: rest)) now R (refresh sender now h))
        :: (((rest.map (refresh sender now)).map
              (stepAll sender ms (nonSelf h.router_id (h :: rest)) now R))
            ++ insertsOf sender ms (nonSelf h.router_id (h :: rest)) now R))
      = nonSelf h.router_id (h :: rest)
        ++ nonSelf h.router_id (insertsOf sender ms (nonSelf h.router_id (h :: rest)) now R) := by
    rw [hrid2, ← hcons, nonSelf_append,
      nonSelf_map_rid h.router_id _ (fun e => stepAll_rid sender ms _ now R e),
      nonSelf_map_rid h.router_id _ (refresh_rid sender now)]
  have hmemI : ∀ x, x ∈ nonSelf h.router_id
        (insertsOf sender ms (nonSelf h.router_id (h :: rest)) now R) →
      ∃ r, r ∈ R ∧ ¬ r.1 ∈ nonSelf h.router_id (h :: rest) ∧ x = r.1 := by
    intro x hx
    rcases (mem_nonSelf _ _ _).mp hx with ⟨hxs, hxI⟩
    rcases List.mem_map.mp hxI with ⟨e, heI, rfl⟩
    rcases List.mem_map.mp heI with ⟨r, hrf, rfl⟩
    rcases List.mem_filter.mp hrf with ⟨hrR, hrn⟩
    exact ⟨r, hrR, by simpa using hrn, rfl⟩
  have hmemIback : ∀ r ∈ R, ¬ r.1 ∈ nonSelf h.router_id (h :: rest) →
      r.1 ∈ nonSelf h.router_id
        (insertsOf sender ms (nonSelf h.router_id (h :: rest)) now R) := by
    intro r hr hn
    refine (mem_nonSelf _ _ _).mpr ⟨hself r hr, ?_⟩
    refine List.mem_map.mpr ⟨RipEntry.mk r.1 (r.2 + ms) sender now, ?_, rfl⟩
    refine List.mem_map.mpr ⟨r, ?_, rfl⟩
    exact List.mem_filter.mpr ⟨hr, by simpa using hn⟩
  have hall2 : ∀ r ∈ R, r.1 ∈ nonSelf
      (stepAll sender ms (nonSelf h.router_id (h :: rest)) now R
        (refresh sender now h)).router_id
      ((stepAll sender ms (nonSelf h.router_id (h :: rest)) now R (refresh sender now h))
        :: (((rest.map (refresh sender now)).map
              (stepAll sender ms (nonSelf h.router_id (h :: rest)) now R))
            ++ insertsOf sender ms (nonSelf h.router_id (h :: rest)) now R)) := by
    intro r hr
    rw [hcrs2]
    by_cases hc : r.1 ∈ nonSelf h.router_id (h :: rest)
    · exact List.mem_append_left _ hc
    · exact List.mem_append_right _ (hmemIback r hr hc)
  rw [apply_records_char sender ms _ now R _ hRnodup,
    insertsOf_eq_nil sender ms _ now R hall2, List.append_nil]
  simp only [Option.map_some']
  refine congrArg some ?_
  rw [List.map_map, List.map_map]
  refine List.map_congr_left ?_
  intro x hx
  dsimp only [Function.comp]
  rw [← hcons] at hx
  rcases List.mem_append.mp hx with hxM | hxI
  · rcases List.mem_map.mp hxM with ⟨e1, he1, rfl⟩
    rcases List.mem_map.mp he1 with ⟨e, he, rfl⟩
    simp only [proj_stepAll, proj_refresh]
    refine projStepAll_double sender ms _ _ R (proj e) hRnodup (hmet e he) ?_
    rw [hcrs2]
    constructor
    · intro hc
      exact List.mem_append_left _ hc
    · intro hc
      rcases List.mem_append.mp hc with hc1 | hcI
      · exact hc1
      · rcases hmemI _ hcI with ⟨r, hrR, hrn, heq⟩
        by_cases hs : e.router_id = h.router_id
        · exact absurd (heq.symm.trans hs) (hself r hrR)
        · exact (mem_nonSelf _ _ _).mpr ⟨hs, List.mem_map.mpr ⟨e, he, rfl⟩⟩
  · rcases List.mem_map.mp hxI with ⟨r, hrf, rfl⟩
    rcases List.mem_filter.mp hrf with ⟨hrR, hrn'⟩
    have hrn : ¬ r.1 ∈ nonSelf h.router_id (h :: rest) := by simpa using hrn'
    have hnot_sender : ¬ (RipEntry.mk r.1 (r.2 + ms) sender now).router_id = sender := by
      intro heq
      have heq' : r.1 = sender := heq
      exact hRsender (heq' ▸ List.mem_map.mpr ⟨r, hrR, rfl⟩)
    rw [refresh_not sender now _ hnot_sender, proj_stepAll]
    show projStepAll sender ms _ R (r.1, r.2 + ms, sender) = (r.1, r.2 + ms, sender)
    have hle : r.2 + ms ≤ 16 := by
      refine hins r hrR ?_
      intro hmem_t
      by_cases hs : r.1 = h.router_id
      · exact hself r hrR hs
      · exact hrn ((mem_nonSelf _ _ _).mpr ⟨hs, hmem_t⟩)
    have hr_pair : (r.1, r.2) ∈ R := by simpa using hrR
    exact projStepAll_insert sender ms _ R r.1 r.2 hRnodup hr_pair hle

/-- Witness for the amended C9 at a concrete instance: table
[self 1 metric 0, sender 2 metric 5], one record advertising destination 3
with metric 2 (candidate 7). -/
theorem C9_idempotence_amended_witness :
    ((update_table (mkPacket 2 0 [(3, 2)]) [RipEntry.mk 1 0 1 5, RipEntry.mk 2 5 2 5] 9).bind
        (fun t1 => update_table (mkPacket 2 0 [(3, 2)]) t1 9)).map (List.map proj)
      = (update_table (mkPacket 2 0 [(3, 2)])
          [RipEntry.mk 1 0 1 5, RipEntry.mk 2 5 2 5] 9).map (List.map proj) :=
  C9_idempotence_amended (RipEntry.mk 1 0 1 5) [RipEntry.mk 2 5 2 5] [(3, 2)] 2 0 5 9
    (by decide) (by decide) (by decide) (by decide) (by decide) (by decide)
